import Mathlib

/-!
# Verification of the portfolio_tracker trade-lot accounting engine

Shallow embedding of the accounting core of `src/main.js` (duplicated in
`src/server.js`).  Amounts, prices and quantities are embedded as exact
rationals (ℚ); calendar dates and timestamps, which the source handles at day
granularity wherever the embedded claims depend on them, are embedded as
integers (ℤ, days since the Unix epoch).  String-valued market and currency
codes are kept as strings, exactly as the source compares them.
-/

namespace Portfolio

/-- The in-memory `currencyRates` map of `main.js` / `server.js`: a
date-keyed table of USD→AUD rates, kept in insertion order (JS `Map`
iteration order).  Keys are day numbers. -/
abbrev RateTable := List (ℤ × ℚ)

/-- `currencyRates.get(dateKey)` / `currencyRates.has(dateKey)`:
first-match association-list lookup (JS `Map` keys are unique). -/
def lookupRate : RateTable → ℤ → Option ℚ
  | [], _ => none
  | (k, r) :: rest, d => if k = d then some r else lookupRate rest d

/-- The probe order of the `for (let i = 1; i <= 7; i++)` loop of
`getUSDToAUDRate` (main.js:183-199): for each `i` it tries day `d - i`
then day `d + i`, returning the first hit. -/
def probeOffsets : List ℤ := [-1, 1, -2, 2, -3, 3, -4, 4, -5, 5, -6, 6, -7, 7]

/-- `getUSDToAUDRate` (main.js:175-202): exact-date hit, else the ±1..7-day
probe in the order of `probeOffsets`, else the fixed fallback `1.5`. -/
def getUSDToAUDRate (rates : RateTable) (d : ℤ) : ℚ :=
  match lookupRate rates d with
  | some r => r
  | none =>
    match probeOffsets.findSome? (fun off => lookupRate rates (d + off)) with
    | some r => r
    | none => 3/2

/-- One step of the nearest-entry scan of `getUSDToAUDRate` in
`server.js:55-64`: keep a candidate only if it is within 7 days and strictly
closer than the best so far (ties keep the earlier-inserted entry). -/
def nearestUpd (d : ℤ) (acc : Option (ℤ × ℚ)) (e : ℤ × ℚ) : Option (ℤ × ℚ) :=
  let diff := |d - e.1|
  if diff ≤ 7 then
    match acc with
    | none => some (diff, e.2)
    | some b => if diff < b.1 then some (diff, e.2) else acc
  else acc

/-- `getUSDToAUDRate` (server.js:42-68): exact hit, else a scan over all
table entries for the nearest one within 7 days, else `1.5`.  The final
`return nearestRate || 1.5` also maps a (JS-falsy) rate of 0 to `1.5`. -/
def getUSDToAUDRateServer (rates : RateTable) (d : ℤ) : ℚ :=
  match lookupRate rates d with
  | some r => r
  | none =>
    match rates.foldl (nearestUpd d) none with
    | some p => if p.2 = 0 then 3/2 else p.2
    | none => 3/2

/-- `convertCurrency` (main.js:626-643, identical in server.js:96-116). -/
def convertCurrency (rates : RateTable) (amount : ℚ) (fromMarket toCurrency : String)
    (tradeDate : ℤ) : ℚ :=
  let fromCurrency := if fromMarket = "AU" then "AUD" else "USD"
  let targetCurrency :=
    if toCurrency = "AU" then "AUD" else if toCurrency = "US" then "USD" else toCurrency
  if fromCurrency = targetCurrency then amount
  else
    let usdToAudRate := getUSDToAUDRate rates tradeDate
    if fromCurrency = "USD" ∧ targetCurrency = "AUD" then amount * usdToAudRate
    else if fromCurrency = "AUD" ∧ targetCurrency = "USD" then amount / usdToAudRate
    else amount

/-- The rate loaders (`downloadCurrencyData` main.js:100-110 and
`loadCurrencyRatesFromFile` main.js:131-141) insert an entry only when the
parsed rate satisfies `!isNaN(rate) && rate > 0`; insertion order is kept.
The date-string plumbing is out of scope; entries arrive already keyed by
day number. -/
def loadRates (entries : List (ℤ × ℚ)) : RateTable :=
  entries.foldl (fun tbl e => if e.2 > 0 then tbl ++ [e] else tbl) []

/-! ## Trades and the per-symbol FIFO lot engine (`calculateFIFOPnL`) -/

/-- Trade side, from the CSV `Side` column. -/
inductive Side where
  | Buy
  | Sell
deriving DecidableEq, Repr

/-- One entry of a `symbolGroups[symbol]` list as built by `calculateFIFOPnL`
(main.js:1346-1358, identically server.js:876-888): side, quantity, the
multiplier-adjusted price, `amount = qty * price`, fill date, commission,
fees (`Total` column), market, and the synthetic flag set by
`addExpiredOptionsLosses`. -/
structure Trade where
  side : Side
  qty : ℚ
  price : ℚ
  amount : ℚ
  date : ℤ
  commission : ℚ
  fees : ℚ
  market : String
  isSynthetic : Bool
deriving DecidableEq, Repr

/-- `originalCurrency: trade.market === 'US' ? 'USD' : 'AUD'`
(main.js:1357). -/
def Trade.originalCurrency (t : Trade) : String :=
  if t.market = "US" then "USD" else "AUD"

/-- One entry of the `holdingsQueue` (main.js:1390-1397): an open lot.
`isShort` is set for the negative lots created by uncovered sells. -/
structure Holding where
  qty : ℚ
  costBasis : ℚ
  costPerShare : ℚ
  currency : String
  date : ℤ
  isShort : Bool
deriving DecidableEq, Repr

/-- The sell loop of `calculateFIFOPnL` (main.js:1409-1425):
`while (remainingQtyToSell > 0 && holdingsQueue.length > 0)` consume
`min(remaining, head.qty)` from the head at `head.costPerShare`, shift the
head when its quantity falls to 0.  Returns
(remaining quantity, `totalCostBasisSold`, final queue).  When the head is
only partially consumed the loop necessarily stops (the consumed amount was
the whole remaining quantity), which the last branch returns directly. -/
def sellLoop (remaining : ℚ) : List Holding → ℚ × ℚ × List Holding
  | [] => (remaining, 0, [])
  | h :: rest =>
    if remaining ≤ 0 then (remaining, 0, h :: rest)
    else
      let consumed := min remaining h.qty
      let costConsumed := h.costPerShare * consumed
      let hqty := h.qty - consumed
      if hqty ≤ 0 then
        let out := sellLoop (remaining - consumed) rest
        (out.1, costConsumed + out.2.1, out.2.2)
      else
        (remaining - consumed, costConsumed,
          { h with qty := hqty, costBasis := h.costBasis - costConsumed } :: rest)

/-- Running totals kept per symbol by `calculateFIFOPnL`
(main.js:1373-1379): the lot queue, realized P&L split by original
currency, and buy/sell volumes split by original currency. -/
structure EngineState where
  queue : List Holding
  pnlUSD : ℚ
  pnlAUD : ℚ
  buyUSD : ℚ
  buyAUD : ℚ
  sellUSD : ℚ
  sellAUD : ℚ
deriving DecidableEq, Repr

def EngineState.init : EngineState := ⟨[], 0, 0, 0, 0, 0, 0⟩

/-- One iteration of the trade loop of `calculateFIFOPnL`
(main.js:1384-1451).  A Buy pushes a lot with
`costBasis = amount + commission + fees`; a Sell runs `sellLoop`, books
`(amount - commission - fees) - totalCostBasisSold` as realized P&L in the
trade's original currency, and, if the queue emptied before the sell was
covered, unshifts a negative (short) lot carrying the per-unit net proceeds
of the uncovered portion. -/
def fifoStep (s : EngineState) (t : Trade) : EngineState :=
  let cur := t.originalCurrency
  match t.side with
  | Side.Buy =>
    let totalCost := t.amount + t.commission + t.fees
    let lot : Holding :=
      ⟨t.qty, totalCost, totalCost / t.qty, cur, t.date, false⟩
    { s with
      queue := s.queue ++ [lot]
      buyUSD := s.buyUSD + (if cur = "USD" then t.amount else 0)
      buyAUD := s.buyAUD + (if cur = "AUD" then t.amount else 0) }
  | Side.Sell =>
    let out := sellLoop t.qty s.queue
    let remaining := out.1
    let totalCostBasisSold := out.2.1
    let queueAfter := out.2.2
    let sellProceeds := t.amount - t.commission - t.fees
    let realizedPnL := sellProceeds - totalCostBasisSold
    let queueFinal :=
      if remaining > 0 then
        let shortSellProceeds := (t.amount / t.qty) * remaining
        let shortSellFees := ((t.commission + t.fees) / t.qty) * remaining
        (⟨-remaining, -(shortSellProceeds - shortSellFees),
          (shortSellProceeds - shortSellFees) / remaining, cur, t.date, true⟩ :
            Holding) :: queueAfter
      else queueAfter
    { s with
      queue := queueFinal
      pnlUSD := s.pnlUSD + (if cur = "USD" then realizedPnL else 0)
      pnlAUD := s.pnlAUD + (if cur = "AUD" then realizedPnL else 0)
      sellUSD := s.sellUSD + (if cur = "USD" then t.amount else 0)
      sellAUD := s.sellAUD + (if cur = "AUD" then t.amount else 0) }

/-- `trades.sort((a, b) => a.date - b.date)` (main.js:1372, 927, 1044): a
stable sort by date, embedded as insertion sort placing each element after
all earlier elements with an equal-or-smaller date. -/
def insertByDate (t : Trade) : List Trade → List Trade
  | [] => [t]
  | u :: us => if u.date ≤ t.date then u :: insertByDate t us else t :: u :: us

def sortTrades (ts : List Trade) : List Trade := ts.foldl (fun acc t => insertByDate t acc) []

/-- The per-symbol body of `calculateFIFOPnL` (main.js:1371-1451): sort the
symbol's trades by date and fold the FIFO step over them. -/
def processTrades (ts : List Trade) : EngineState :=
  (sortTrades ts).foldl fifoStep EngineState.init

/-- `currentNetPosition` (main.js:1454): signed sum of remaining lot
quantities. -/
def EngineState.netPosition (s : EngineState) : ℚ := (s.queue.map Holding.qty).sum

/-- `currentTotalCost` (main.js:1455): sum of `|costBasis|` over the queue. -/
def EngineState.totalCost (s : EngineState) : ℚ := (s.queue.map (fun h => |h.costBasis|)).sum

/-- The display-currency conversion of realized P&L (main.js:1458-1461):
`realizedPnLByCurrency.USD * (displayCurrency === 'USD' ? 1 : rate(now)) +
 realizedPnLByCurrency.AUD * (displayCurrency === 'AUD' ? 1 : 1/rate(now))`
where `now` is `new Date()` at report time. -/
def convertedPnL (rates : RateTable) (displayCurrency : String) (now : ℤ)
    (s : EngineState) : ℚ :=
  s.pnlUSD * (if displayCurrency = "USD" then 1 else getUSDToAUDRate rates now) +
    s.pnlAUD * (if displayCurrency = "AUD" then 1 else 1 / getUSDToAUDRate rates now)

/-- The display-currency conversion of buy volume (main.js:1463-1464):
`volumeByCurrency.USD.buy * (displayCurrency === 'USD' ? 1 : rate(now)) +
 volumeByCurrency.AUD.buy * (displayCurrency === 'AUD' ? 1 : 1/rate(now))`
with the same report-time `now`. -/
def convertedBuyVolume (rates : RateTable) (displayCurrency : String) (now : ℤ)
    (s : EngineState) : ℚ :=
  s.buyUSD * (if displayCurrency = "USD" then 1 else getUSDToAUDRate rates now) +
    s.buyAUD * (if displayCurrency = "AUD" then 1 else 1 / getUSDToAUDRate rates now)

/-- The display-currency conversion of sell volume (main.js:1466-1467). -/
def convertedSellVolume (rates : RateTable) (displayCurrency : String) (now : ℤ)
    (s : EngineState) : ℚ :=
  s.sellUSD * (if displayCurrency = "USD" then 1 else getUSDToAUDRate rates now) +
    s.sellAUD * (if displayCurrency = "AUD" then 1 else 1 / getUSDToAUDRate rates now)

/-! ## Option decoding and synthetic expiry closes (`addExpiredOptionsLosses`)

`parseOptionsSymbol` (main.js:497-519) decodes a symbol against the regex
pattern UNDERLYING + YYMMDD + C-or-P + STRIKE; the only facts of the
descriptor the embedded claims depend on are whether the symbol decodes at
all and its expiry date, so a decoded symbol is embedded as
`Option OptionInfo` (none = plain equity, exactly the source's null).
`isExpired` (main.js:514) is `expiryDate < new Date()`; the wall-clock
"now" is passed explicitly. -/

structure OptionInfo where
  expiry : ℤ
deriving DecidableEq, Repr

/-- `remainingHoldings` (main.js:1047-1054): signed sum of buy quantities
minus sell quantities over the symbol's trades. -/
def netRemaining (ts : List Trade) : ℚ :=
  ts.foldl (fun acc t => match t.side with
    | Side.Buy => acc + t.qty
    | Side.Sell => acc - t.qty) 0

/-- The synthetic closing trade pushed by `addExpiredOptionsLosses`
(main.js:1063-1079): Sell of the remaining quantity at price 0, zero
amount, commission and fees, dated at the option's expiry, marked
synthetic. -/
def syntheticSell (qty : ℚ) (expiry : ℤ) (market : String) : Trade :=
  ⟨Side.Sell, qty, 0, 0, expiry, 0, 0, market, true⟩

/-- Per-symbol body of `addExpiredOptionsLosses` (main.js:1036-1081): for
a symbol that decodes as an option and is expired as of `now`, append one
synthetic sell when the net remaining quantity exceeds the 0.01 tolerance;
otherwise (plain equity, unexpired option, or no residual) leave the trade
list unchanged.  `market` is the sample trade's market used for the
synthetic trade. -/
def addExpiredOptionLoss (opt : Option OptionInfo) (now : ℤ) (market : String)
    (ts : List Trade) : List Trade :=
  match opt with
  | none => ts
  | some info =>
    if info.expiry < now then
      if netRemaining ts > 1/100 then
        ts ++ [syntheticSell (netRemaining ts) info.expiry market]
      else ts
    else ts

/-! ## The Capital Gains Reporter (`calculateCapitalGains`) -/

/-- One entry of a capital-gains `symbolGroups[symbol]` list
(main.js:903-918): quantities plus the trade-date AUD conversions of
amount, commission and fees. -/
structure CGTrade where
  side : Side
  qty : ℚ
  amountAUD : ℚ
  commissionAUD : ℚ
  feesAUD : ℚ
  date : ℤ
  isSynthetic : Bool
deriving DecidableEq, Repr

/-- The AUD conversion applied while grouping (main.js:915-917): each
field converted at that trade's own fill date. -/
def toCGTrade (rates : RateTable) (t : Trade) : CGTrade :=
  ⟨t.side, t.qty,
    convertCurrency rates t.amount t.market "AUD" t.date,
    convertCurrency rates t.commission t.market "AUD" t.date,
    convertCurrency rates t.fees t.market "AUD" t.date,
    t.date, t.isSynthetic⟩

/-- The synthetic closing trade as pushed into a capital-gains group
(main.js:1063-1079): all AUD fields are the literal 0. -/
def syntheticCGSell (qty : ℚ) (expiry : ℤ) : CGTrade :=
  ⟨Side.Sell, qty, 0, 0, 0, expiry, true⟩

/-- `netRemaining` over a capital-gains group (same loop,
main.js:1047-1054). -/
def netRemainingCG (ts : List CGTrade) : ℚ :=
  ts.foldl (fun acc t => match t.side with
    | Side.Buy => acc + t.qty
    | Side.Sell => acc - t.qty) 0

/-- `addExpiredOptionsLosses` as it acts on a capital-gains group. -/
def addExpiredOptionLossCG (opt : Option OptionInfo) (now : ℤ)
    (ts : List CGTrade) : List CGTrade :=
  match opt with
  | none => ts
  | some info =>
    if info.expiry < now then
      if netRemainingCG ts > 1/100 then
        ts ++ [syntheticCGSell (netRemainingCG ts) info.expiry]
      else ts
    else ts

/-- One `holdings` entry of `calculateCapitalGains` (main.js:940-946). -/
structure CGHolding where
  qty : ℚ
  date : ℤ
  cost : ℚ
deriving DecidableEq, Repr

/-- One capital-gains record (main.js:975-991), restricted to the numeric
fields the claims are about. -/
structure CGRecord where
  sellDate : ℤ
  buyDate : ℤ
  qty : ℚ
  costBasis : ℚ
  proceeds : ℚ
  capitalGain : ℚ
  holdingPeriod : ℤ
  isLongTerm : Bool
deriving DecidableEq, Repr

/-- The in-window sell loop of `calculateCapitalGains` (main.js:955-1000):
`while (remainingQty > 0 && holdings.length > 0)` emit one record per
consumed slice, reduce the head's quantity and cost proportionally, shift
the head when its quantity reaches exactly 0.  `sellQty` is the sell's
total quantity (for the proportional fee allocation), `sellPricePerUnit`
and `totalFees` the values computed once per sell (main.js:951-952).
As in `sellLoop`, a partially consumed head means the remaining quantity
hit zero, so the loop stops. -/
def cgSellLoop (sellDate : ℤ) (sellQty sellPricePerUnit totalFees : ℚ) :
    ℚ → List CGHolding → List CGRecord × List CGHolding
  | _, [] => ([], [])
  | remaining, h :: rest =>
    if remaining ≤ 0 then ([], h :: rest)
    else
      let qtyToSell := min remaining h.qty
      let costPerShare := h.cost / h.qty
      let costBasis := costPerShare * qtyToSell
      let proceedsForLot := qtyToSell * sellPricePerUnit
      let commissionAndFeesForLot := totalFees * (qtyToSell / sellQty)
      let netProceedsForLot := proceedsForLot - commissionAndFeesForLot
      let holdingPeriod := sellDate - h.date
      let record : CGRecord :=
        ⟨sellDate, h.date, qtyToSell, costBasis, netProceedsForLot,
          netProceedsForLot - costBasis, holdingPeriod, 365 ≤ holdingPeriod⟩
      if h.qty - qtyToSell = 0 then
        let out := cgSellLoop sellDate sellQty sellPricePerUnit totalFees
          (remaining - qtyToSell) rest
        (record :: out.1, out.2)
      else
        (record :: [],
          { h with qty := h.qty - qtyToSell, cost := h.cost - costBasis } :: rest)

/-- The out-of-window sell loop (main.js:1003-1013): same FIFO
consumption of quantities, but no records are emitted and — unlike the
in-window loop — the head's `cost` is left unchanged. -/
def cgSkipLoop : ℚ → List CGHolding → List CGHolding
  | _, [] => []
  | remaining, h :: rest =>
    if remaining ≤ 0 then h :: rest
    else
      let qtyToSell := min remaining h.qty
      if h.qty - qtyToSell = 0 then cgSkipLoop (remaining - qtyToSell) rest
      else { h with qty := h.qty - qtyToSell } :: rest

/-- One iteration of the trade loop of `calculateCapitalGains`
(main.js:932-1016).  Buys push a holding with
`cost = amountAUD + commissionAUD + feesAUD`; sells inside
`[cutoffDateStart, cutoffDateEnd]` run the record-emitting loop, sells
outside it run the quantity-only loop. -/
def cgStep (startD endD : ℤ) (st : List CGHolding × List CGRecord)
    (t : CGTrade) : List CGHolding × List CGRecord :=
  match t.side with
  | Side.Buy =>
    (st.1 ++ [⟨t.qty, t.date, t.amountAUD + t.commissionAUD + t.feesAUD⟩], st.2)
  | Side.Sell =>
    if startD ≤ t.date ∧ t.date ≤ endD then
      let sellPricePerUnit := if t.qty > 0 then t.amountAUD / t.qty else 0
      let totalFees := t.commissionAUD + t.feesAUD
      let out := cgSellLoop t.date t.qty sellPricePerUnit totalFees t.qty st.1
      (out.2, st.2 ++ out.1)
    else
      (cgSkipLoop t.qty st.1, st.2)

/-- `trades.sort((a, b) => a.date - b.date)` for a capital-gains group
(main.js:927): stable insertion sort by date. -/
def insertByDateCG (t : CGTrade) : List CGTrade → List CGTrade
  | [] => [t]
  | u :: us => if u.date ≤ t.date then u :: insertByDateCG t us else t :: u :: us

def sortCGTrades (ts : List CGTrade) : List CGTrade :=
  ts.foldl (fun acc t => insertByDateCG t acc) []

/-- The per-symbol body of `calculateCapitalGains` (main.js:926-1017):
sort the (possibly synthetic-extended) group by date and fold the step
function, starting from empty holdings and no records.  Returns
(final holdings, emitted records in emission order); the caller's final
`sort((a, b) => b.sellDate - a.sellDate)` (main.js:1019) only reorders the
records. -/
def cgProcess (startD endD : ℤ) (ts : List CGTrade) :
    List CGHolding × List CGRecord :=
  (sortCGTrades ts).foldl (cgStep startD endD) ([], [])

/-! ## Raw-record ingestion (`parseFilledAvg`, `parseCSVDate`, status filter)

CSV string plumbing is out of scope (spec §1 treats it as "yields a
sequence of key-value records"), so each raw field arrives with its
JavaScript parse outcome made explicit: a numeric text field is the
`parseFloat` result (`none` = NaN), and the combined quantity-price field
records whether the text was falsy, contained a separator, or not. -/

/-- The `Filled@Avg Price` column as seen by `parseFilledAvg`
(main.js:483-491).  `missing` is a falsy value (empty/absent), replaced by
the default `"0@0"`; `noSep` is a non-empty string with no separator, so
`split` yields a single part and the price part is `undefined`; `withSep`
carries the `parseFloat` outcomes of the two parts (`none` = NaN). -/
inductive FilledAvgField where
  | missing
  | noSep (qtyPart : Option ℚ)
  | withSep (qtyPart pricePart : Option ℚ)
deriving DecidableEq, Repr

/-- `parseFilledAvg` (main.js:483-491).  `none` models the thrown
`TypeError`: when the field has no separator, `price` is `undefined` and
`price.replace(",", "")` raises.  Otherwise NaN parses are coerced to 0 by
`|| 0` and the price is scaled by the option multiplier. -/
def parseFilledAvg (field : FilledAvgField) (multiplier : ℚ) : Option (ℚ × ℚ) :=
  match field with
  | FilledAvgField.missing => some (0, 0 * multiplier)
  | FilledAvgField.noSep _ => none
  | FilledAvgField.withSep q p => some (q.getD 0, (p.getD 0) * multiplier)

/-- The sentinel date `new Date('1900-01-01')` (main.js:526, 556) as a day
number relative to the Unix epoch. -/
def sentinelDate : ℤ := -25567

/-- `parseCSVDate` (main.js:525-566): the input's `Date`-parse outcome is
explicit (`none` = every parse attempt produced an invalid date, or the
string was falsy); unparseable inputs fall back to the 1900-01-01
sentinel. -/
def parseCSVDate (parsed : Option ℤ) : ℤ := parsed.getD sentinelDate

/-- `isExecutedStatus` (main.js:645-647). -/
def isExecutedStatus (status : String) : Bool :=
  status = "Filled" || status = "Partially Cancelled"

/-- One raw CSV record, restricted to the fields the ingestion loop of
`calculateFIFOPnL` (main.js:1331-1358) reads.  Numeric text fields carry
their `parseFloat` outcome, the fill time its `Date`-parse outcome. -/
structure RawRecord where
  status : String
  side : Side
  filledAvg : FilledAvgField
  fillTime : Option ℤ
  commission : Option ℚ
  fees : Option ℚ
  market : String
deriving DecidableEq, Repr

/-- One iteration of the grouping loop of `calculateFIFOPnL`
(main.js:1331-1358) for a single symbol with multiplier `multiplier`:
`parseFilledAvg` then `amount = qty * price`, sentinel-defaulted date, and
`|| 0`-coerced commission and fees.  `none` models the `TypeError`
escaping `parseFilledAvg` and aborting the whole computation. -/
def ingestRecord (multiplier : ℚ) (r : RawRecord) : Option Trade :=
  match parseFilledAvg r.filledAvg multiplier with
  | none => none
  | some fill =>
    some ⟨r.side, fill.1, fill.2, fill.1 * fill.2, parseCSVDate r.fillTime,
      r.commission.getD 0, r.fees.getD 0, r.market, false⟩

/-- `trades.filter(trade => isExecutedStatus(trade.Status))` followed by
the grouping loop (main.js:1327-1358): the whole-portfolio ingestion
aborts (`none`) as soon as any filled record raises. -/
def ingestRecords (multiplier : ℚ) : List RawRecord → Option (List Trade)
  | [] => some []
  | r :: rest =>
    if isExecutedStatus r.status then
      match ingestRecord multiplier r with
      | none => none
      | some t =>
        match ingestRecords multiplier rest with
        | none => none
        | some ts => some (t :: ts)
    else ingestRecords multiplier rest

/-- The probe offsets from iteration `i` on: the loop of main.js:183-199
restated with its iteration counter explicit, for reasoning by induction
on the remaining iterations; `probeFrom 1` is the whole probe. -/
def probeFrom (i : ℕ) : List ℤ :=
  if i ≤ 7 then (-(i : ℤ)) :: (i : ℤ) :: probeFrom (i + 1) else []
termination_by 8 - i

/-! ## Helper lemmas -/

/-- Every rate stored in a table. -/
def RatePos (tbl : RateTable) : Prop := ∀ k r, lookupRate tbl k = some r → 0 < r

theorem probeFrom_one : probeFrom 1 = probeOffsets := by
  rw [probeFrom, probeFrom, probeFrom, probeFrom, probeFrom, probeFrom, probeFrom,
    probeFrom]
  norm_num [probeOffsets]

theorem findSome?_cons_none {α β : Type} (f : α → Option β) (a : α) (l : List α)
    (h : f a = none) : (a :: l).findSome? f = l.findSome? f := by
  simp [List.findSome?, h]

theorem findSome?_cons_some {α β : Type} (f : α → Option β) (a : α) (l : List α)
    (b : β) (h : f a = some b) : (a :: l).findSome? f = some b := by
  simp [List.findSome?, h]

/-- If the table has a hit at distance `m ≤ 7` — on the earlier side, or on
the later side with the earlier side at that distance empty — and no entry
strictly closer, the probe suffix starting at iteration `i ≤ m` returns
that hit. -/
theorem probeFrom_hit (rates : RateTable) (d : ℤ) (m : ℕ) (r : ℚ)
    (hm7 : m ≤ 7)
    (hhit : lookupRate rates (d + -(m : ℤ)) = some r ∨
      (lookupRate rates (d + -(m : ℤ)) = none ∧ lookupRate rates (d + (m : ℤ)) = some r))
    (hnone : ∀ j : ℕ, 1 ≤ j → j < m →
      lookupRate rates (d + -(j : ℤ)) = none ∧ lookupRate rates (d + (j : ℤ)) = none)
    (i : ℕ) (hi1 : 1 ≤ i) (him : i ≤ m) :
    (probeFrom i).findSome? (fun off => lookupRate rates (d + off)) = some r := by
  rw [probeFrom, if_pos (le_trans him hm7)]
  by_cases hcase : i = m
  · subst hcase
    rcases hhit with h | ⟨h1, h2⟩
    · rw [findSome?_cons_some (fun off => lookupRate rates (d + off)) _ _ _ h]
    · rw [findSome?_cons_none (fun off => lookupRate rates (d + off)) _ _ h1,
        findSome?_cons_some (fun off => lookupRate rates (d + off)) _ _ _ h2]
  · have hilt : i < m := lt_of_le_of_ne him hcase
    have hn := hnone i hi1 hilt
    rw [findSome?_cons_none (fun off => lookupRate rates (d + off)) _ _ hn.1,
      findSome?_cons_none (fun off => lookupRate rates (d + off)) _ _ hn.2]
    exact probeFrom_hit rates d m r hm7 hhit hnone (i + 1) (by omega) (by omega)
termination_by m - i

/-- If no entry lies within 7 days on either side, the probe suffix from
any iteration `i ≥ 1` finds nothing. -/
theorem probeFrom_none (rates : RateTable) (d : ℤ)
    (hnone : ∀ j : ℕ, 1 ≤ j → j ≤ 7 →
      lookupRate rates (d + -(j : ℤ)) = none ∧ lookupRate rates (d + (j : ℤ)) = none)
    (i : ℕ) (hi1 : 1 ≤ i) :
    (probeFrom i).findSome? (fun off => lookupRate rates (d + off)) = none := by
  by_cases h : i ≤ 7
  · rw [probeFrom, if_pos h]
    have hn := hnone i hi1 h
    rw [findSome?_cons_none (fun off => lookupRate rates (d + off)) _ _ hn.1,
      findSome?_cons_none (fun off => lookupRate rates (d + off)) _ _ hn.2]
    exact probeFrom_none rates d hnone (i + 1) (by omega)
  · rw [probeFrom, if_neg h]
    simp [List.findSome?]
termination_by 8 - i

theorem getUSDToAUDRate_lookup_none (rates : RateTable) (d : ℤ)
    (h : lookupRate rates d = none) :
    getUSDToAUDRate rates d =
      match probeOffsets.findSome? (fun off => lookupRate rates (d + off)) with
      | some r => r
      | none => 3/2 := by
  rw [getUSDToAUDRate, h]

theorem lookupRate_append (l₁ l₂ : RateTable) (d : ℤ) :
    lookupRate (l₁ ++ l₂) d =
      match lookupRate l₁ d with
      | some r => some r
      | none => lookupRate l₂ d := by
  induction l₁ with
  | nil => simp [lookupRate]
  | cons e rest ih =>
    by_cases h : e.1 = d
    · simp [lookupRate, h]
    · simpa [lookupRate, h] using ih

theorem ratePos_loadRates_aux (entries : List (ℤ × ℚ)) (acc : RateTable)
    (hacc : RatePos acc) :
    RatePos (entries.foldl (fun tbl e => if e.2 > 0 then tbl ++ [e] else tbl) acc) := by
  induction entries generalizing acc with
  | nil => simpa using hacc
  | cons e rest ih =>
    simp only [List.foldl_cons]
    apply ih
    by_cases he : e.2 > 0
    · rw [if_pos he]
      intro k r hk
      rw [lookupRate_append] at hk
      rcases h1 : lookupRate acc k with _ | r'
      · rw [h1] at hk
        simp only [lookupRate] at hk
        by_cases hek : e.1 = k
        · rw [if_pos hek] at hk
          cases hk
          exact he
        · rw [if_neg hek] at hk
          cases hk
      · rw [h1] at hk
        cases hk
        exact hacc k _ h1
    · rw [if_neg he]
      exact hacc

theorem ratePos_loadRates (entries : List (ℤ × ℚ)) : RatePos (loadRates entries) := by
  apply ratePos_loadRates_aux
  intro k r hk
  simp [lookupRate] at hk

theorem findSome?_lookupRate_pos (tbl : RateTable) (hp : RatePos tbl)
    (offs : List ℤ) (d : ℤ) (r : ℚ)
    (h : offs.findSome? (fun off => lookupRate tbl (d + off)) = some r) : 0 < r := by
  induction offs with
  | nil => simp [List.findSome?] at h
  | cons o os ih =>
    rw [List.findSome?] at h
    rcases h1 : lookupRate tbl (d + o) with _ | r'
    · rw [h1] at h
      exact ih h
    · rw [h1] at h
      cases h
      exact hp _ _ h1

theorem getUSDToAUDRate_pos (tbl : RateTable) (hp : RatePos tbl) (d : ℤ) :
    0 < getUSDToAUDRate tbl d := by
  rw [getUSDToAUDRate]
  rcases h1 : lookupRate tbl d with _ | r
  · rcases h2 : probeOffsets.findSome? (fun off => lookupRate tbl (d + off)) with _ | r'
    · norm_num
    · exact findSome?_lookupRate_pos tbl hp _ d _ h2
  · exact hp _ _ h1

/-- C10 — loader-guarded tables make every rate lookup strictly positive
(exact hit, probe hit, or the 1.5 fallback), so the AUD→USD division of
`convertCurrency` is by a nonzero rate and the original amount is
recoverable from the converted one.  Since amounts are embedded as exact
rationals, every conversion of a finite amount is a finite rational. -/
theorem C10_rate_positive_no_zero_division (entries : List (ℤ × ℚ)) (d : ℤ) (amount : ℚ) :
    0 < getUSDToAUDRate (loadRates entries) d ∧
      getUSDToAUDRate (loadRates entries) d ≠ 0 ∧
      convertCurrency (loadRates entries) amount "AU" "USD" d =
        amount / getUSDToAUDRate (loadRates entries) d ∧
      convertCurrency (loadRates entries) amount "AU" "USD" d *
        getUSDToAUDRate (loadRates entries) d = amount := by
  have hpos := getUSDToAUDRate_pos (loadRates entries) (ratePos_loadRates entries) d
  have hne : getUSDToAUDRate (loadRates entries) d ≠ 0 := ne_of_gt hpos
  have hconv : convertCurrency (loadRates entries) amount "AU" "USD" d =
      amount / getUSDToAUDRate (loadRates entries) d := by
    simp [convertCurrency]
  refine ⟨hpos, hne, hconv, ?_⟩
  rw [hconv]
  exact div_mul_cancel₀ amount hne

/-- C9 — `convertCurrency` is the identity when source and target
currencies coincide, multiplies by the date's rate for USD→AUD, divides by
it for AUD→USD, and silently returns the amount unchanged for any
unrecognized target code; being a total function of the embedded inputs it
never errors.  The source currency is AUD exactly for market "AU" and USD
for every other market; recognized target codes are "AU"/"AUD" and
"US"/"USD". -/
theorem C9_convertCurrency_characterization :
    (∀ rates amount fromMarket d, ∀ toCurrency : String,
      (fromMarket = "AU" ∧ (toCurrency = "AU" ∨ toCurrency = "AUD")) ∨
        (fromMarket ≠ "AU" ∧ (toCurrency = "US" ∨ toCurrency = "USD")) →
      convertCurrency rates amount fromMarket toCurrency d = amount) ∧
    (∀ rates amount fromMarket d, ∀ toCurrency : String,
      fromMarket ≠ "AU" → (toCurrency = "AU" ∨ toCurrency = "AUD") →
      convertCurrency rates amount fromMarket toCurrency d =
        amount * getUSDToAUDRate rates d) ∧
    (∀ rates amount d, ∀ toCurrency : String,
      (toCurrency = "US" ∨ toCurrency = "USD") →
      convertCurrency rates amount "AU" toCurrency d =
        amount / getUSDToAUDRate rates d) ∧
    (∀ rates amount fromMarket d, ∀ toCurrency : String,
      toCurrency ≠ "AU" → toCurrency ≠ "US" →
      toCurrency ≠ "AUD" → toCurrency ≠ "USD" →
      convertCurrency rates amount fromMarket toCurrency d = amount) := by
  refine ⟨?_, ?_, ?_, ?_⟩
  · rintro rates amount fromMarket d toCurrency (⟨hf, ht | ht⟩ | ⟨hf, ht | ht⟩) <;>
      simp [convertCurrency, hf, ht]
  · rintro rates amount fromMarket d toCurrency hf (ht | ht) <;>
      simp [convertCurrency, hf, ht]
  · rintro rates amount d toCurrency (ht | ht) <;>
      simp [convertCurrency, ht]
  · intro rates amount fromMarket d toCurrency h1 h2 h3 h4
    by_cases hf : fromMarket = "AU" <;>
      simp [convertCurrency, hf, h1, h2, h3, h4, Ne.symm h3, Ne.symm h4]

/-- Witness for C9 at concrete inputs: an AUD-market amount requested in
the unrecognized code "EUR" passes through unchanged, and a USD-market
amount requested in "AUD" is multiplied by the day's rate (table has rate 2
at day 0). -/
theorem C9_witness :
    convertCurrency [] (7 : ℚ) "AU" "EUR" 0 = 7 ∧
      convertCurrency [((0 : ℤ), (2 : ℚ))] 5 "US" "AUD" 0 =
        5 * getUSDToAUDRate [((0 : ℤ), (2 : ℚ))] 0 := by
  constructor
  · exact C9_convertCurrency_characterization.2.2.2 [] 7 "AU" 0 "EUR"
      (by decide) (by decide) (by decide) (by decide)
  · exact C9_convertCurrency_characterization.2.1 [((0 : ℤ), (2 : ℚ))] 5 "US" 0 "AUD"
      (by decide) (Or.inr rfl)

/-- C6 — `getUSDToAUDRate` returns an exact hit directly; otherwise it
probes day −1, +1, −2, +2, … out to ±7 days and returns the first hit, so
an entry strictly nearer than every other entry wins (with the earlier side
preferred at equal distance), and when no entry lies within 7 days on
either side it returns the fallback constant 1.5.  Clauses, in order:
exact hit; all-miss fallback; nearest-wins for an earlier-side hit at
distance m; nearest-wins for a later-side hit at distance m (earlier side
at m empty); and the claim's concrete table — rates only at day 19723
(2024-01-01) and day 19732 (2024-01-10) — queried at day 19726
(2024-01-04, giving the 2024-01-01 rate) and day 19742 (2024-01-20, giving
the fallback), for the main.js probe and for the server.js nearest-scan
variant alike. -/
theorem C6_rate_probe_nearest_and_fallback :
    (∀ rates d r, lookupRate rates d = some r → getUSDToAUDRate rates d = r) ∧
    (∀ rates d, lookupRate rates d = none →
      (∀ j : ℕ, 1 ≤ j → j ≤ 7 →
        lookupRate rates (d - (j : ℤ)) = none ∧ lookupRate rates (d + (j : ℤ)) = none) →
      getUSDToAUDRate rates d = 3/2) ∧
    (∀ rates d r, ∀ m : ℕ, 1 ≤ m → m ≤ 7 → lookupRate rates d = none →
      lookupRate rates (d - (m : ℤ)) = some r →
      (∀ j : ℕ, 1 ≤ j → j < m →
        lookupRate rates (d - (j : ℤ)) = none ∧ lookupRate rates (d + (j : ℤ)) = none) →
      getUSDToAUDRate rates d = r) ∧
    (∀ rates d r, ∀ m : ℕ, 1 ≤ m → m ≤ 7 → lookupRate rates d = none →
      lookupRate rates (d - (m : ℤ)) = none → lookupRate rates (d + (m : ℤ)) = some r →
      (∀ j : ℕ, 1 ≤ j → j < m →
        lookupRate rates (d - (j : ℤ)) = none ∧ lookupRate rates (d + (j : ℤ)) = none) →
      getUSDToAUDRate rates d = r) ∧
    (getUSDToAUDRate [(19723, 17/10), (19732, 8/5)] 19726 = 17/10 ∧
      getUSDToAUDRate [(19723, 17/10), (19732, 8/5)] 19742 = 3/2) ∧
    (getUSDToAUDRateServer [(19723, 17/10), (19732, 8/5)] 19726 = 17/10 ∧
      getUSDToAUDRateServer [(19723, 17/10), (19732, 8/5)] 19742 = 3/2) := by
  have hsub : ∀ d : ℤ, ∀ j : ℕ, d - (j : ℤ) = d + -(j : ℤ) := fun d j => sub_eq_add_neg d j
  refine ⟨?_, ?_, ?_, ?_, ?_, ?_⟩
  · intro rates d r h
    rw [getUSDToAUDRate, h]
  · intro rates d hd hnone
    rw [getUSDToAUDRate_lookup_none rates d hd, ← probeFrom_one,
      probeFrom_none rates d (fun j h1 h7 => by
        rw [← hsub]
        exact hnone j h1 h7) 1 le_rfl]
  · intro rates d r m hm1 hm7 hd hhit hnone
    rw [getUSDToAUDRate_lookup_none rates d hd, ← probeFrom_one,
      probeFrom_hit rates d m r hm7 (Or.inl (by rw [← hsub]; exact hhit))
        (fun j h1 hj => by rw [← hsub]; exact hnone j h1 hj) 1 le_rfl hm1]
  · intro rates d r m hm1 hm7 hd hmiss hhit hnone
    rw [getUSDToAUDRate_lookup_none rates d hd, ← probeFrom_one,
      probeFrom_hit rates d m r hm7 (Or.inr ⟨by rw [← hsub]; exact hmiss, hhit⟩)
        (fun j h1 hj => by rw [← hsub]; exact hnone j h1 hj) 1 le_rfl hm1]
  · constructor
    · norm_num [getUSDToAUDRate, lookupRate, probeOffsets, List.findSome?]
    · norm_num [getUSDToAUDRate, lookupRate, probeOffsets, List.findSome?]
  · constructor
    · norm_num [getUSDToAUDRateServer, nearestUpd, lookupRate]
    · norm_num [getUSDToAUDRateServer, nearestUpd, lookupRate]

/-- Witness for C6: the nearest-wins clause applied to the concrete table
with a hit 3 days earlier (and nothing within 2 days on either side). -/
theorem C6_witness :
    getUSDToAUDRate [((19723 : ℤ), (17/10 : ℚ)), (19732, 8/5)] 19726 = 17/10 := by
  refine C6_rate_probe_nearest_and_fallback.2.2.1 _ 19726 (17/10) 3 (by norm_num)
    (by norm_num) (by norm_num [lookupRate]) (by norm_num [lookupRate]) ?_
  intro j h1 hj
  interval_cases j <;> norm_num [lookupRate]

theorem insertByDate_perm (t : Trade) (l : List Trade) :
    List.Perm (insertByDate t l) (t :: l) := by
  induction l with
  | nil => exact List.Perm.refl _
  | cons u us ih =>
    rw [insertByDate]
    by_cases h : u.date ≤ t.date
    · rw [if_pos h]
      exact (ih.cons u).trans (List.Perm.swap t u us)
    · rw [if_neg h]

theorem sortTrades_aux_perm (ts : List Trade) :
    ∀ acc, List.Perm (ts.foldl (fun acc t => insertByDate t acc) acc) (acc ++ ts) := by
  induction ts with
  | nil => intro acc; simp
  | cons t ts ih =>
    intro acc
    simp only [List.foldl_cons]
    exact ((ih _).trans ((insertByDate_perm t acc).append_right ts)).trans
      List.perm_middle.symm

theorem sortTrades_perm (ts : List Trade) : List.Perm (sortTrades ts) ts := by
  simpa using sortTrades_aux_perm ts []

theorem insertByDate_sorted (t : Trade) (l : List Trade)
    (hl : l.Sorted (fun a b => a.date ≤ b.date)) :
    (insertByDate t l).Sorted (fun a b => a.date ≤ b.date) := by
  induction l with
  | nil => simp [insertByDate]
  | cons u us ih =>
    rw [List.sorted_cons] at hl
    rw [insertByDate]
    by_cases h : u.date ≤ t.date
    · rw [if_pos h, List.sorted_cons]
      refine ⟨?_, ih hl.2⟩
      intro b hb
      rcases List.mem_cons.mp ((insertByDate_perm t us).mem_iff.mp hb) with hb | hb
      · rw [hb]; exact h
      · exact hl.1 b hb
    · rw [if_neg h, List.sorted_cons]
      refine ⟨?_, List.sorted_cons.mpr hl⟩
      intro b hb
      rcases List.mem_cons.mp hb with hb | hb
      · rw [hb]; exact le_of_not_le h
      · exact le_trans (le_of_not_le h) (hl.1 b hb)

theorem sortTrades_sorted (ts : List Trade) :
    (sortTrades ts).Sorted (fun a b => a.date ≤ b.date) := by
  suffices h : ∀ acc, acc.Sorted (fun a b : Trade => a.date ≤ b.date) →
      (ts.foldl (fun acc t => insertByDate t acc) acc).Sorted
        (fun a b => a.date ≤ b.date) by
    exact h [] (by simp)
  induction ts with
  | nil => intro acc h; simpa using h
  | cons t ts ih =>
    intro acc h
    simp only [List.foldl_cons]
    exact ih _ (insertByDate_sorted t acc h)

/-- C1 — the FIFO engine processes each symbol's trades in ascending
timestamp order (the sorted list is sorted by date and a permutation of the
input); each sell repeatedly consumes `min(remaining, head.qty)` from the
head lot at the head's per-unit cost (consumption clause); the realized
gain booked for the whole sell is
`(grossAmount - commission - fees) - totalCostBasisSold` (gain clause); and
on the history Buy(100@10), Buy(50@12), Sell(120@20) with zero commissions
and fees the sell consumes the 100-lot fully, then 20 units of the 50-lot
(leaving a 30-unit lot at per-unit cost 12), with realized gain
`2400 - (100*10 + 20*12)`. -/
theorem C1_fifo_order_and_realized_gain :
    (∀ ts : List Trade,
      (sortTrades ts).Sorted (fun a b => a.date ≤ b.date) ∧
        List.Perm (sortTrades ts) ts) ∧
    (∀ remaining : ℚ, ∀ h : Holding, ∀ rest : List Holding, 0 < remaining →
      (sellLoop remaining (h :: rest)).2.1 =
        h.costPerShare * min remaining h.qty +
          (if h.qty - min remaining h.qty ≤ 0
           then (sellLoop (remaining - min remaining h.qty) rest).2.1 else 0)) ∧
    (∀ s : EngineState, ∀ t : Trade, t.side = Side.Sell → t.market = "US" →
      (fifoStep s t).pnlUSD =
        s.pnlUSD + ((t.amount - t.commission - t.fees) - (sellLoop t.qty s.queue).2.1)) ∧
    ((processTrades
        [⟨Side.Buy, 100, 10, 1000, 1, 0, 0, "US", false⟩,
         ⟨Side.Buy, 50, 12, 600, 2, 0, 0, "US", false⟩]).queue =
      [⟨100, 1000, 10, "USD", 1, false⟩, ⟨50, 600, 12, "USD", 2, false⟩] ∧
     (processTrades
        [⟨Side.Buy, 100, 10, 1000, 1, 0, 0, "US", false⟩,
         ⟨Side.Buy, 50, 12, 600, 2, 0, 0, "US", false⟩,
         ⟨Side.Sell, 120, 20, 2400, 3, 0, 0, "US", false⟩]).queue =
      [⟨30, 360, 12, "USD", 2, false⟩] ∧
     (processTrades
        [⟨Side.Buy, 100, 10, 1000, 1, 0, 0, "US", false⟩,
         ⟨Side.Buy, 50, 12, 600, 2, 0, 0, "US", false⟩,
         ⟨Side.Sell, 120, 20, 2400, 3, 0, 0, "US", false⟩]).pnlUSD =
      2400 - (100 * 10 + 20 * 12)) := by
  refine ⟨fun ts => ⟨sortTrades_sorted ts, sortTrades_perm ts⟩, ?_, ?_, ?_, ?_, ?_⟩
  · intro remaining h rest hrem
    rw [sellLoop]
    rw [if_neg (not_le.mpr hrem)]
    by_cases hq : h.qty - min remaining h.qty ≤ 0
    · simp only [hq, if_true, if_pos hq]
    · simp only [hq, if_false, if_neg hq]
      ring
  · intro s t hside hmkt
    rw [fifoStep, hside]
    simp [Trade.originalCurrency, hmkt]
  · norm_num [processTrades, sortTrades, insertByDate, fifoStep, sellLoop,
      EngineState.init, Trade.originalCurrency]
  · norm_num [processTrades, sortTrades, insertByDate, fifoStep, sellLoop,
      EngineState.init, Trade.originalCurrency]
  · norm_num [processTrades, sortTrades, insertByDate, fifoStep, sellLoop,
      EngineState.init, Trade.originalCurrency]

/-- Witness for C1: the realized-gain clause applied to the empty initial
state and the concrete Sell(120@20). -/
theorem C1_witness :
    (fifoStep (EngineState.init) ⟨Side.Sell, 120, 20, 2400, 3, 0, 0, "US", false⟩).pnlUSD =
      (EngineState.init).pnlUSD +
        ((2400 - 0 - 0) -
          (sellLoop 120 (EngineState.init).queue).2.1) := by
  exact C1_fifo_order_and_realized_gain.2.2.1 EngineState.init
    ⟨Side.Sell, 120, 20, 2400, 3, 0, 0, "US", false⟩ rfl rfl

/-- C4 counterexample — on the history Sell(50@20) with no prior lots, then
Buy(50@15), the claim says the buy fully closes the short lot, leaving no
residual short or long lot in the queue; in the code a Buy only ever pushes
a new lot, so the final queue is nonempty. -/
theorem C4_counterexample :
    (processTrades
      [⟨Side.Sell, 50, 20, 1000, 1, 0, 0, "US", false⟩,
       ⟨Side.Buy, 50, 15, 750, 2, 0, 0, "US", false⟩]).queue ≠ [] := by
  norm_num [processTrades, sortTrades, insertByDate, fifoStep, sellLoop,
    EngineState.init, Trade.originalCurrency]
  simp

/-- C4 amended — after Sell(50@20) then Buy(50@15) the queue holds both the
−50 short lot (per-unit proceeds 20) and the +50 long lot pushed by the
buy; the net position is 0 and no synthetic expiry close is ever generated
for a non-option symbol (first clause).  The buy does not consume the short
lot. -/
theorem C4_short_round_trip_amended :
    (∀ now : ℤ, ∀ market : String, ∀ ts : List Trade,
      addExpiredOptionLoss none now market ts = ts) ∧
    (processTrades
      [⟨Side.Sell, 50, 20, 1000, 1, 0, 0, "US", false⟩,
       ⟨Side.Buy, 50, 15, 750, 2, 0, 0, "US", false⟩]).queue =
      [⟨-50, -1000, 20, "USD", 1, true⟩, ⟨50, 750, 15, "USD", 2, false⟩] ∧
    (processTrades
      [⟨Side.Sell, 50, 20, 1000, 1, 0, 0, "US", false⟩,
       ⟨Side.Buy, 50, 15, 750, 2, 0, 0, "US", false⟩]).netPosition = 0 := by
  refine ⟨fun now market ts => rfl, ?_, ?_⟩ <;>
    norm_num [processTrades, sortTrades, insertByDate, fifoStep, sellLoop,
      EngineState.init, Trade.originalCurrency, EngineState.netPosition]

/-- C5 — evaluation at the failing input (code bug).  Window `[15, 30]`
stands for FY2023 `[2023-07-01, 2024-06-30 end of day]` with the out-of-window
sell at day 10 standing for 2023-06-30.  History: Buy 10 units with total
cost 100 (day 0), out-of-window Sell 4 (day 10), in-window Sell 6 for
proceeds 120 (day 20).  The out-of-window sell emits no record and reduces
the lot's quantity (final holdings are empty and only one record is
emitted, so the replay covered the whole history), but it leaves the lot's
cost at 100, so the in-window sell's record carries cost basis 100 — while
replaying with both sells in-window (window `[0, 30]`) gives the second
sell cost basis 60, the value the claim's "exactly as an in-window sell"
requires. -/
theorem C5_out_of_window_sell_keeps_lot_cost :
    (cgProcess 15 30
      [⟨Side.Buy, 10, 100, 0, 0, 0, false⟩,
       ⟨Side.Sell, 4, 0, 0, 0, 10, false⟩,
       ⟨Side.Sell, 6, 120, 0, 0, 20, false⟩]).2 =
      [⟨20, 0, 6, 100, 120, 20, 20, false⟩] ∧
    (cgProcess 0 30
      [⟨Side.Buy, 10, 100, 0, 0, 0, false⟩,
       ⟨Side.Sell, 4, 0, 0, 0, 10, false⟩,
       ⟨Side.Sell, 6, 120, 0, 0, 20, false⟩]).2.map CGRecord.costBasis = [40, 60] ∧
    (cgProcess 15 30
      [⟨Side.Buy, 10, 100, 0, 0, 0, false⟩,
       ⟨Side.Sell, 4, 0, 0, 0, 10, false⟩,
       ⟨Side.Sell, 6, 120, 0, 0, 20, false⟩]).1 = [] := by
  refine ⟨?_, ?_, ?_⟩ <;>
    norm_num [cgProcess, sortCGTrades, insertByDateCG, cgStep, cgSellLoop, cgSkipLoop]

theorem cgSellLoop_nil (sellDate : ℤ) (sellQty pricePerUnit totalFees remaining : ℚ) :
    cgSellLoop sellDate sellQty pricePerUnit totalFees remaining [] = ([], []) := by
  rw [cgSellLoop]

theorem cgSellLoop_cons_zero (sellDate : ℤ) (sellQty pricePerUnit totalFees remaining : ℚ)
    (h : CGHolding) (rest : List CGHolding) (hr : remaining ≤ 0) :
    cgSellLoop sellDate sellQty pricePerUnit totalFees remaining (h :: rest) =
      ([], h :: rest) := by
  rw [cgSellLoop, if_pos hr]

theorem cgSellLoop_cons_shift (sellDate : ℤ) (sellQty pricePerUnit totalFees remaining : ℚ)
    (h : CGHolding) (rest : List CGHolding)
    (hr : ¬ remaining ≤ 0) (hq : h.qty - min remaining h.qty = 0) :
    cgSellLoop sellDate sellQty pricePerUnit totalFees remaining (h :: rest) =
      (CGRecord.mk sellDate h.date (min remaining h.qty)
          (h.cost / h.qty * min remaining h.qty)
          (min remaining h.qty * pricePerUnit - totalFees * (min remaining h.qty / sellQty))
          ((min remaining h.qty * pricePerUnit - totalFees * (min remaining h.qty / sellQty)) -
            h.cost / h.qty * min remaining h.qty)
          (sellDate - h.date) (decide (365 ≤ sellDate - h.date)) ::
        (cgSellLoop sellDate sellQty pricePerUnit totalFees
          (remaining - min remaining h.qty) rest).1,
       (cgSellLoop sellDate sellQty pricePerUnit totalFees
          (remaining - min remaining h.qty) rest).2) := by
  rw [cgSellLoop, if_neg hr]
  show (if h.qty - min remaining h.qty = 0 then _ else _) = _
  rw [if_pos hq]

theorem cgSellLoop_cons_stop (sellDate : ℤ) (sellQty pricePerUnit totalFees remaining : ℚ)
    (h : CGHolding) (rest : List CGHolding)
    (hr : ¬ remaining ≤ 0) (hq : ¬ h.qty - min remaining h.qty = 0) :
    cgSellLoop sellDate sellQty pricePerUnit totalFees remaining (h :: rest) =
      ([CGRecord.mk sellDate h.date (min remaining h.qty)
          (h.cost / h.qty * min remaining h.qty)
          (min remaining h.qty * pricePerUnit - totalFees * (min remaining h.qty / sellQty))
          ((min remaining h.qty * pricePerUnit - totalFees * (min remaining h.qty / sellQty)) -
            h.cost / h.qty * min remaining h.qty)
          (sellDate - h.date) (decide (365 ≤ sellDate - h.date))],
       CGHolding.mk (h.qty - min remaining h.qty) h.date
          (h.cost - h.cost / h.qty * min remaining h.qty) :: rest) := by
  rw [cgSellLoop, if_neg hr]
  show (if h.qty - min remaining h.qty = 0 then _ else _) = _
  rw [if_neg hq]

theorem sum_map_qty_nonneg (holdings : List CGHolding)
    (h : ∀ x ∈ holdings, 0 < x.qty) : 0 ≤ (holdings.map CGHolding.qty).sum := by
  apply List.sum_nonneg
  intro x hx
  rcases List.mem_map.mp hx with ⟨y, hy, rfl⟩
  exact le_of_lt (h y hy)

theorem cgSellLoop_slices (sellDate : ℤ) (sellQty pricePerUnit fees : ℚ) :
    ∀ holdings : List CGHolding, ∀ remaining : ℚ,
      (∀ h ∈ holdings, 0 < h.qty) → 0 ≤ remaining →
      (((cgSellLoop sellDate sellQty pricePerUnit fees remaining holdings).1.map
          CGRecord.qty).sum =
        min remaining ((holdings.map CGHolding.qty).sum)) ∧
      ∀ h ∈ (cgSellLoop sellDate sellQty pricePerUnit fees remaining holdings).2,
        0 < h.qty := by
  intro holdings
  induction holdings with
  | nil =>
    intro remaining hpos hrem
    rw [cgSellLoop_nil]
    constructor
    · simp [min_eq_right hrem]
    · simp
  | cons h rest ih =>
    intro remaining hpos hrem
    have hq := hpos h (List.mem_cons_self h rest)
    have hrestpos : ∀ x ∈ rest, 0 < x.qty := fun x hx => hpos x (List.mem_cons_of_mem h hx)
    have hsumr : 0 ≤ (rest.map CGHolding.qty).sum := sum_map_qty_nonneg rest hrestpos
    by_cases hr : remaining ≤ 0
    · have h0 : remaining = 0 := le_antisymm hr hrem
      subst h0
      rw [cgSellLoop_cons_zero _ _ _ _ _ _ _ hr]
      constructor
      · rw [min_eq_left (by simp; linarith)]
        simp
      · exact hpos
    · by_cases hcase : h.qty - min remaining h.qty = 0
      · have hmin : min remaining h.qty = h.qty := by linarith
        have hhle : h.qty ≤ remaining := by
          have := min_le_left remaining h.qty
          linarith [hmin]
        have ihout := ih (remaining - h.qty) hrestpos (by linarith)
        rw [cgSellLoop_cons_shift _ _ _ _ _ _ _ hr hcase]
        constructor
        · simp only [List.map_cons, List.sum_cons, List.map_nil, List.sum_nil]
          rw [hmin, ihout.1]
          rcases le_total (remaining - h.qty) ((rest.map CGHolding.qty).sum) with hc | hc
          · rw [min_eq_left hc, min_eq_left (by linarith)]
            ring
          · rw [min_eq_right hc, min_eq_right (by linarith)]
        · rw [hmin]
          exact ihout.2
      · have hmin : min remaining h.qty = remaining := by
          rcases min_choice remaining h.qty with hc | hc
          · exact hc
          · exact absurd (by rw [hc]; ring) hcase
        have hlt : remaining < h.qty := by
          have hle : remaining ≤ h.qty := by
            have := min_le_right remaining h.qty
            linarith [hmin]
          rcases lt_or_eq_of_le hle with hlt | heq
          · exact hlt
          · exact absurd (by rw [hmin, ← heq]; ring) hcase
        rw [cgSellLoop_cons_stop _ _ _ _ _ _ _ hr hcase]
        constructor
        · simp only [List.map_cons, List.sum_cons, List.map_nil, List.sum_nil]
          rw [hmin, min_eq_left (by linarith)]
          ring
        · intro x hx
          rcases List.mem_cons.mp hx with hx | hx
          · rw [hx, hmin]
            simp only []
            linarith
          · exact hrestpos x hx

/-- C3 counterexample — an in-window Sell(50) with no open holdings: the
Capital Gains Reporter emits no records (slice-quantity sum 0, not 50) and
leaves the queue empty — the uncovered residual neither produces a record
nor becomes a negative lot. -/
theorem C3_counterexample :
    (cgProcess 0 100 [⟨Side.Sell, 50, 1000, 0, 0, 10, false⟩]).2 = [] ∧
    (cgProcess 0 100 [⟨Side.Sell, 50, 1000, 0, 0, 10, false⟩]).1 = [] ∧
    (((cgProcess 0 100 [⟨Side.Sell, 50, 1000, 0, 0, 10, false⟩]).2.map
        CGRecord.qty).sum ≠ 50) := by
  refine ⟨?_, ?_, ?_⟩ <;>
    norm_num [cgProcess, sortCGTrades, insertByDateCG, cgStep, cgSellLoop]

/-- C3 amended — for an in-window sell processed by the Capital Gains
Reporter over all-positive holdings, the records appended for that sell are
exactly the FIFO slices, their quantities sum to
`min(sell quantity, total open holdings quantity)` (equal to the sell's
quantity exactly when the holdings cover it), and the resulting queue again
holds only positive lots: any uncovered residual is dropped — no negative
(short) lot is created in this reporter (that behavior exists only in
`calculateFIFOPnL`). -/
theorem C3_slice_sum_amended :
    ∀ startD endD : ℤ, ∀ t : CGTrade, ∀ holdings : List CGHolding,
      ∀ records : List CGRecord,
      t.side = Side.Sell → startD ≤ t.date → t.date ≤ endD →
      (∀ h ∈ holdings, 0 < h.qty) → 0 ≤ t.qty →
      ((cgStep startD endD (holdings, records) t).2 =
        records ++ (cgSellLoop t.date t.qty
          (if t.qty > 0 then t.amountAUD / t.qty else 0)
          (t.commissionAUD + t.feesAUD) t.qty holdings).1) ∧
      ((((cgStep startD endD (holdings, records) t).2.drop records.length).map
          CGRecord.qty).sum = min t.qty ((holdings.map CGHolding.qty).sum)) ∧
      (∀ h ∈ (cgStep startD endD (holdings, records) t).1, 0 < h.qty) := by
  intro startD endD t holdings records hside hin1 hin2 hpos hq
  have hslices := cgSellLoop_slices t.date t.qty
    (if t.qty > 0 then t.amountAUD / t.qty else 0)
    (t.commissionAUD + t.feesAUD) holdings t.qty hpos hq
  have hstep : cgStep startD endD (holdings, records) t =
      ((cgSellLoop t.date t.qty (if t.qty > 0 then t.amountAUD / t.qty else 0)
          (t.commissionAUD + t.feesAUD) t.qty holdings).2,
        records ++ (cgSellLoop t.date t.qty
          (if t.qty > 0 then t.amountAUD / t.qty else 0)
          (t.commissionAUD + t.feesAUD) t.qty holdings).1) := by
    simp only [cgStep, hside]
    rw [if_pos ⟨hin1, hin2⟩]
  rw [hstep]
  refine ⟨rfl, ?_, hslices.2⟩
  rw [List.drop_left]
  exact hslices.1

/-- Witness for C3 at a concrete input: a Sell(50) against a single 10-unit
lot yields slices summing to min(50, 10). -/
theorem C3_witness :
    (((cgStep 0 100 ([⟨10, 0, 100⟩], [])
        ⟨Side.Sell, 50, 1000, 0, 0, 10, false⟩).2.drop
          (List.length ([] : List CGRecord))).map CGRecord.qty).sum =
      min (50 : ℚ)
        ((([⟨(10 : ℚ), 0, 100⟩] : List CGHolding).map CGHolding.qty).sum) := by
  exact (C3_slice_sum_amended 0 100 ⟨Side.Sell, 50, 1000, 0, 0, 10, false⟩
    [⟨10, 0, 100⟩] [] rfl (by norm_num) (by norm_num)
    (by intro x hx; simp at hx; rw [hx]; norm_num) (by norm_num)).2.1

theorem cgSellLoop_consume_all (sellDate : ℤ) (sellQty : ℚ) :
    ∀ holdings : List CGHolding,
      (∀ h ∈ holdings, 0 < h.qty) →
      ((cgSellLoop sellDate sellQty 0 0 ((holdings.map CGHolding.qty).sum)
          holdings).1.map CGRecord.qty) = holdings.map CGHolding.qty ∧
      (((cgSellLoop sellDate sellQty 0 0 ((holdings.map CGHolding.qty).sum)
          holdings).1.map CGRecord.capitalGain).sum =
        -((holdings.map CGHolding.cost).sum)) ∧
      (cgSellLoop sellDate sellQty 0 0 ((holdings.map CGHolding.qty).sum)
          holdings).2 = [] := by
  intro holdings
  induction holdings with
  | nil =>
    intro hpos
    rw [List.map_nil]
    simp [cgSellLoop_nil]
  | cons h rest ih =>
    intro hpos
    have hq := hpos h (List.mem_cons_self h rest)
    have hrestpos : ∀ x ∈ rest, 0 < x.qty := fun x hx => hpos x (List.mem_cons_of_mem h hx)
    have hsumr : 0 ≤ (rest.map CGHolding.qty).sum := sum_map_qty_nonneg rest hrestpos
    have hsum : ((h :: rest).map CGHolding.qty).sum = h.qty + (rest.map CGHolding.qty).sum := by
      simp
    rw [hsum]
    have hr : ¬ h.qty + (rest.map CGHolding.qty).sum ≤ 0 := by linarith
    have hmin : min (h.qty + (rest.map CGHolding.qty).sum) h.qty = h.qty :=
      min_eq_right (by linarith)
    have hcase : h.qty - min (h.qty + (rest.map CGHolding.qty).sum) h.qty = 0 := by
      rw [hmin]; ring
    rw [cgSellLoop_cons_shift _ _ _ _ _ _ _ hr hcase]
    have harg : h.qty + (rest.map CGHolding.qty).sum -
        min (h.qty + (rest.map CGHolding.qty).sum) h.qty = (rest.map CGHolding.qty).sum := by
      rw [hmin]; ring
    rw [harg]
    have ihout := ih hrestpos
    refine ⟨?_, ?_, ihout.2.2⟩
    · rw [List.map_cons, List.map_cons]
      rw [ihout.1]
      simp only [List.cons.injEq, and_true]
      exact hmin
    · rw [List.map_cons, List.sum_cons, ihout.2.1]
      simp only [List.map_cons, List.sum_cons]
      rw [hmin]
      have hcost : h.cost / h.qty * h.qty = h.cost := div_mul_cancel₀ h.cost (ne_of_gt hq)
      rw [hcost]
      ring

/-- C2 — for an expired option symbol with net remaining quantity above the
0.01 tolerance, exactly one synthetic Sell is appended: quantity equal to
the net remaining quantity, price/amount/commission/fees 0, dated at the
expiry, flagged synthetic (clauses 1 and 5, for the FIFO and the
capital-gains group alike); no synthetic trade is appended for an unexpired
option, for a residual at or below 0.01, or for a non-option symbol
(clauses 2-4); replaying FIFO over the queue standing at expiry, a
synthetic sell of the queue's total quantity consumes every lot and its
records' capital gains sum to minus the total remaining cost basis
(clause 6); end to end, an expired option bought 5 units at total cost 500
with no real closing sell yields exactly one synthetic Sell(5@0) at expiry
whose single record has capital gain −500 (clause 7). -/
theorem C2_synthetic_expiry_close :
    (∀ info : OptionInfo, ∀ now : ℤ, ∀ market : String, ∀ ts : List Trade,
      info.expiry < now → netRemaining ts > 1/100 →
      addExpiredOptionLoss (some info) now market ts =
        ts ++ [syntheticSell (netRemaining ts) info.expiry market]) ∧
    (∀ info : OptionInfo, ∀ now : ℤ, ∀ market : String, ∀ ts : List Trade,
      ¬ info.expiry < now →
      addExpiredOptionLoss (some info) now market ts = ts) ∧
    (∀ info : OptionInfo, ∀ now : ℤ, ∀ market : String, ∀ ts : List Trade,
      ¬ netRemaining ts > 1/100 →
      addExpiredOptionLoss (some info) now market ts = ts) ∧
    (∀ now : ℤ, ∀ market : String, ∀ ts : List Trade,
      addExpiredOptionLoss none now market ts = ts) ∧
    (∀ info : OptionInfo, ∀ now : ℤ, ∀ ts : List CGTrade,
      info.expiry < now → netRemainingCG ts > 1/100 →
      addExpiredOptionLossCG (some info) now ts =
        ts ++ [syntheticCGSell (netRemainingCG ts) info.expiry]) ∧
    (∀ startD endD expiry : ℤ, ∀ holdings : List CGHolding, ∀ records : List CGRecord,
      (∀ h ∈ holdings, 0 < h.qty) → startD ≤ expiry → expiry ≤ endD →
      (cgStep startD endD (holdings, records)
        (syntheticCGSell ((holdings.map CGHolding.qty).sum) expiry)).1 = [] ∧
      ((((cgStep startD endD (holdings, records)
          (syntheticCGSell ((holdings.map CGHolding.qty).sum) expiry)).2.drop
            records.length).map CGRecord.capitalGain).sum =
        -((holdings.map CGHolding.cost).sum))) ∧
    (addExpiredOptionLossCG (some ⟨10⟩) 20 [⟨Side.Buy, 5, 500, 0, 0, 0, false⟩] =
        [⟨Side.Buy, 5, 500, 0, 0, 0, false⟩, ⟨Side.Sell, 5, 0, 0, 0, 10, true⟩] ∧
      cgProcess 0 100
        (addExpiredOptionLossCG (some ⟨10⟩) 20 [⟨Side.Buy, 5, 500, 0, 0, 0, false⟩]) =
        ([], [⟨10, 0, 5, 500, 0, -500, 10, false⟩])) := by
  refine ⟨?_, ?_, ?_, ?_, ?_, ?_, ?_, ?_⟩
  · intro info now market ts h1 h2
    simp only [addExpiredOptionLoss]
    rw [if_pos h1, if_pos h2]
  · intro info now market ts h1
    simp only [addExpiredOptionLoss]
    rw [if_neg h1]
  · intro info now market ts h2
    simp only [addExpiredOptionLoss]
    by_cases h1 : info.expiry < now
    · rw [if_pos h1, if_neg h2]
    · rw [if_neg h1]
  · intro now market ts
    rfl
  · intro info now ts h1 h2
    simp only [addExpiredOptionLossCG]
    rw [if_pos h1, if_pos h2]
  · intro startD endD expiry holdings records hpos h1 h2
    have hall := cgSellLoop_consume_all expiry ((holdings.map CGHolding.qty).sum)
      holdings hpos
    have hstep : cgStep startD endD (holdings, records)
        (syntheticCGSell ((holdings.map CGHolding.qty).sum) expiry) =
        ((cgSellLoop expiry ((holdings.map CGHolding.qty).sum) 0 0
            ((holdings.map CGHolding.qty).sum) holdings).2,
          records ++ (cgSellLoop expiry ((holdings.map CGHolding.qty).sum) 0 0
            ((holdings.map CGHolding.qty).sum) holdings).1) := by
      simp only [cgStep, syntheticCGSell]
      rw [if_pos ⟨h1, h2⟩]
      have hprice : (if (0 : ℚ) < (holdings.map CGHolding.qty).sum
          then (0 : ℚ) / (holdings.map CGHolding.qty).sum else 0) = 0 := by
        split_ifs <;> simp
      rw [hprice]
      norm_num
    rw [hstep]
    refine ⟨hall.2.2, ?_⟩
    rw [List.drop_left]
    exact hall.2.1
  · norm_num [addExpiredOptionLossCG, netRemainingCG, syntheticCGSell]
  · norm_num [addExpiredOptionLossCG, netRemainingCG, syntheticCGSell, cgProcess,
      sortCGTrades, insertByDateCG, cgStep, cgSellLoop]

/-- Witness for C2: the replay clause at a single remaining 5-unit lot of
cost 500 — the synthetic sell empties the queue and books gain −500. -/
theorem C2_witness :
    (cgStep 0 100 ([⟨5, 0, 500⟩], [])
      (syntheticCGSell ((([⟨(5 : ℚ), 0, 500⟩] : List CGHolding).map CGHolding.qty).sum)
        10)).1 = [] ∧
    ((((cgStep 0 100 ([⟨5, 0, 500⟩], [])
        (syntheticCGSell ((([⟨(5 : ℚ), 0, 500⟩] : List CGHolding).map CGHolding.qty).sum)
          10)).2.drop (List.length ([] : List CGRecord))).map
            CGRecord.capitalGain).sum =
      -((([⟨(5 : ℚ), 0, 500⟩] : List CGHolding).map CGHolding.cost).sum)) := by
  exact C2_synthetic_expiry_close.2.2.2.2.2.1 0 100 10 [⟨5, 0, 500⟩] []
    (by intro x hx; simp at hx; rw [hx]; norm_num) (by norm_num) (by norm_num)

/-- C7 — the Portfolio Summarizer converts realized P&L with the rate at
the report-time current date (`new Date()` in main.js:1459): with display
currency AUD the USD P&L is multiplied by `rate(now)`, with display
currency USD the AUD P&L is divided by `rate(now)` (clause 1); the buy and
sell volumes are converted the same way, at the same current-date rate
(main.js:1463-1467, clause 2), from the per-original-currency totals the
engine accumulates trade by trade (clause 3); the Capital Gains Reporter
instead converts each trade's amount, commission and fees at that trade's
own fill date (clause 4); and on a concrete USD round trip with rate 2 at
the trade dates but fallback 3/2 at the current date the summarizer's AUD
P&L is 75 and its AUD buy/sell volumes are 150/225 (current-date rate 3/2)
while the reporter's total capital gain is 100 — both behaviors hold
simultaneously and differ when the rates differ (clause 5). -/
theorem C7_summary_now_rate_vs_reporter_trade_date_rate :
    (∀ rates : RateTable, ∀ now : ℤ, ∀ s : EngineState,
      convertedPnL rates "AUD" now s =
        s.pnlUSD * getUSDToAUDRate rates now + s.pnlAUD ∧
      convertedPnL rates "USD" now s =
        s.pnlUSD + s.pnlAUD * (1 / getUSDToAUDRate rates now)) ∧
    (∀ rates : RateTable, ∀ now : ℤ, ∀ s : EngineState,
      convertedBuyVolume rates "AUD" now s =
        s.buyUSD * getUSDToAUDRate rates now + s.buyAUD ∧
      convertedBuyVolume rates "USD" now s =
        s.buyUSD + s.buyAUD * (1 / getUSDToAUDRate rates now) ∧
      convertedSellVolume rates "AUD" now s =
        s.sellUSD * getUSDToAUDRate rates now + s.sellAUD ∧
      convertedSellVolume rates "USD" now s =
        s.sellUSD + s.sellAUD * (1 / getUSDToAUDRate rates now)) ∧
    (∀ s : EngineState, ∀ t : Trade, t.market = "US" →
      (t.side = Side.Buy →
        (fifoStep s t).buyUSD = s.buyUSD + t.amount ∧
        (fifoStep s t).buyAUD = s.buyAUD) ∧
      (t.side = Side.Sell →
        (fifoStep s t).sellUSD = s.sellUSD + t.amount ∧
        (fifoStep s t).sellAUD = s.sellAUD)) ∧
    (∀ rates : RateTable, ∀ t : Trade, t.market = "US" →
      (toCGTrade rates t).amountAUD = t.amount * getUSDToAUDRate rates t.date ∧
      (toCGTrade rates t).commissionAUD = t.commission * getUSDToAUDRate rates t.date ∧
      (toCGTrade rates t).feesAUD = t.fees * getUSDToAUDRate rates t.date) ∧
    (convertedPnL [(0, 2)] "AUD" 10
        (processTrades
          [⟨Side.Buy, 10, 10, 100, 0, 0, 0, "US", false⟩,
           ⟨Side.Sell, 10, 15, 150, 1, 0, 0, "US", false⟩]) = 75 ∧
      convertedBuyVolume [(0, 2)] "AUD" 10
        (processTrades
          [⟨Side.Buy, 10, 10, 100, 0, 0, 0, "US", false⟩,
           ⟨Side.Sell, 10, 15, 150, 1, 0, 0, "US", false⟩]) = 150 ∧
      convertedSellVolume [(0, 2)] "AUD" 10
        (processTrades
          [⟨Side.Buy, 10, 10, 100, 0, 0, 0, "US", false⟩,
           ⟨Side.Sell, 10, 15, 150, 1, 0, 0, "US", false⟩]) = 225 ∧
      ((cgProcess 0 100
          ([⟨Side.Buy, 10, 10, 100, 0, 0, 0, "US", false⟩,
            ⟨Side.Sell, 10, 15, 150, 1, 0, 0, "US", false⟩].map
              (toCGTrade [(0, 2)]))).2.map CGRecord.capitalGain).sum = 100 ∧
      (75 : ℚ) ≠ 100) := by
  have h1 : ¬ ("AUD" : String) = "USD" := by decide
  have h2 : ¬ ("USD" : String) = "AUD" := by decide
  have h3 : ¬ ("US" : String) = "AU" := by decide
  have h4 : ¬ ("AUD" : String) = "AU" := by decide
  have h5 : ¬ ("AUD" : String) = "US" := by decide
  refine ⟨?_, ?_, ?_, ?_, ?_, ?_, ?_, ?_, by norm_num⟩
  · intro rates now s
    constructor
    · rw [convertedPnL, if_neg h1, if_pos rfl, mul_one]
    · rw [convertedPnL, if_pos rfl, if_neg h2, mul_one]
  · intro rates now s
    refine ⟨?_, ?_, ?_, ?_⟩
    · rw [convertedBuyVolume, if_neg h1, if_pos rfl, mul_one]
    · rw [convertedBuyVolume, if_pos rfl, if_neg h2, mul_one]
    · rw [convertedSellVolume, if_neg h1, if_pos rfl, mul_one]
    · rw [convertedSellVolume, if_pos rfl, if_neg h2, mul_one]
  · intro s t hm
    constructor
    · intro hside
      rw [fifoStep, hside]
      constructor <;> simp [Trade.originalCurrency, hm]
    · intro hside
      rw [fifoStep, hside]
      constructor <;> simp [Trade.originalCurrency, hm]
  · intro rates t hm
    refine ⟨?_, ?_, ?_⟩ <;> simp [toCGTrade, convertCurrency, hm]
  · norm_num [convertedPnL, processTrades, sortTrades, insertByDate, fifoStep,
      sellLoop, EngineState.init, Trade.originalCurrency, getUSDToAUDRate,
      lookupRate, probeOffsets, List.findSome?, h1, h2]
  · norm_num [convertedBuyVolume, processTrades, sortTrades, insertByDate,
      fifoStep, sellLoop, EngineState.init, Trade.originalCurrency,
      getUSDToAUDRate, lookupRate, probeOffsets, List.findSome?, h1, h2]
  · norm_num [convertedSellVolume, processTrades, sortTrades, insertByDate,
      fifoStep, sellLoop, EngineState.init, Trade.originalCurrency,
      getUSDToAUDRate, lookupRate, probeOffsets, List.findSome?, h1, h2]
  · norm_num [cgProcess, sortCGTrades, insertByDateCG, cgStep, cgSellLoop,
      toCGTrade, convertCurrency, getUSDToAUDRate, lookupRate, probeOffsets,
      List.findSome?, h1, h2, h3, h4, h5]

/-- Witness for C7: the reporter's conversion of a concrete US-market sell
uses the rate at the trade's own date, and the engine books a concrete
US-market buy's amount into the USD buy-volume bucket. -/
theorem C7_witness :
    (toCGTrade [((0 : ℤ), (2 : ℚ))]
        ⟨Side.Sell, 10, 15, 150, 1, 0, 0, "US", false⟩).amountAUD =
      150 * getUSDToAUDRate [((0 : ℤ), (2 : ℚ))] 1 ∧
    (fifoStep EngineState.init
        ⟨Side.Buy, 10, 10, 100, 0, 0, 0, "US", false⟩).buyUSD =
      EngineState.init.buyUSD + 100 := by
  constructor
  · exact (C7_summary_now_rate_vs_reporter_trade_date_rate.2.2.2.1
      [((0 : ℤ), (2 : ℚ))] ⟨Side.Sell, 10, 15, 150, 1, 0, 0, "US", false⟩ rfl).1
  · exact ((C7_summary_now_rate_vs_reporter_trade_date_rate.2.2.1
      EngineState.init ⟨Side.Buy, 10, 10, 100, 0, 0, 0, "US", false⟩ rfl).1 rfl).1

/-- C8 counterexample — a filled record whose `Filled@Avg Price` text is
non-empty but has no `@` separator makes `split('@')` yield a single part,
so `price` is `undefined` and `price.replace(",", "")`
(main.js:485) throws a TypeError that aborts the whole-portfolio
computation: ingestion returns `none` for such a batch, refuting "never
raises" as stated. -/
theorem C8_counterexample :
    ingestRecords 1
      [⟨"Filled", Side.Sell, FilledAvgField.noSep none, none, none, none, "US"⟩] =
      none := by
  rfl

/-- C8 amended — ingestion never aborts provided every executed record's
`Filled@Avg Price` field is missing/empty or contains the `@` separator
(clause 1); within that proviso the coercions hold as claimed: a missing
field parses as the default `0@0`, a NaN quantity or price part coerces to
0 via `|| 0` (clauses 2-4), an unparseable fill time falls back to the
1900-01-01 sentinel (day −25567, clause 5), and a buy of any quantity —
zero or negative included — still just pushes one degenerate lot rather
than aborting (clause 6). -/
theorem C8_never_raises_amended :
    (∀ multiplier : ℚ, ∀ records : List RawRecord,
      (∀ r ∈ records, isExecutedStatus r.status = true →
        ∀ q : Option ℚ, r.filledAvg ≠ FilledAvgField.noSep q) →
      ∃ ts : List Trade, ingestRecords multiplier records = some ts) ∧
    (∀ multiplier : ℚ,
      parseFilledAvg FilledAvgField.missing multiplier = some (0, 0 * multiplier)) ∧
    (∀ multiplier : ℚ, ∀ p : Option ℚ,
      parseFilledAvg (FilledAvgField.withSep none p) multiplier =
        some (0, (p.getD 0) * multiplier)) ∧
    (∀ multiplier : ℚ, ∀ q : Option ℚ,
      parseFilledAvg (FilledAvgField.withSep q none) multiplier =
        some (q.getD 0, 0 * multiplier)) ∧
    (parseCSVDate none = sentinelDate ∧ sentinelDate = -25567) ∧
    (∀ s : EngineState, ∀ t : Trade, t.side = Side.Buy →
      (fifoStep s t).queue =
        s.queue ++ [⟨t.qty, t.amount + t.commission + t.fees,
          (t.amount + t.commission + t.fees) / t.qty,
          t.originalCurrency, t.date, false⟩]) := by
  refine ⟨?_, fun m => rfl, fun m p => rfl, fun m q => rfl, ⟨rfl, rfl⟩, ?_⟩
  · intro multiplier records
    induction records with
    | nil => intro _; exact ⟨[], rfl⟩
    | cons r rest ih =>
      intro hsafe
      obtain ⟨ts, hts⟩ := ih (fun x hx hex => hsafe x (List.mem_cons_of_mem r hx) hex)
      by_cases hex : isExecutedStatus r.status = true
      · have hna := hsafe r (List.mem_cons_self r rest) hex
        have hsome : ∃ t : Trade, ingestRecord multiplier r = some t := by
          cases hmatch : ingestRecord multiplier r with
          | some t => exact ⟨t, rfl⟩
          | none =>
            exfalso
            rcases hfa : r.filledAvg with _ | q | ⟨q, p⟩
            · simp [ingestRecord, parseFilledAvg, hfa] at hmatch
            · exact (hna q) hfa
            · simp [ingestRecord, parseFilledAvg, hfa] at hmatch
        obtain ⟨t, ht⟩ := hsome
        refine ⟨t :: ts, ?_⟩
        rw [ingestRecords, if_pos hex, ht, hts]
      · refine ⟨ts, ?_⟩
        rw [ingestRecords, if_neg hex]
        exact hts
  · intro s t hside
    rw [fifoStep, hside]

/-- Witness for C8: a batch consisting of one filled record with separator
present and NaN quantity and price parts ingests successfully. -/
theorem C8_witness :
    ∃ ts : List Trade,
      ingestRecords 1
        [⟨"Filled", Side.Buy, FilledAvgField.withSep none none, none, none, none,
          "US"⟩] = some ts := by
  refine C8_never_raises_amended.1 1 _ ?_
  intro r hr hex q
  simp at hr
  rw [hr]
  simp

end Portfolio
